import Mathlib

/-!
# Verification of the duck_server protocol/dispatch layer

A shallow embedding, in Lean 4, of the parts of the `duck_server` Go code
that the specification claims talk about: the PostgreSQL-side connection
state machine (`pg_conn.go`), the wire codec (`wire.go`, `message.go`),
the SCRAM-SHA-256 authentication flow (`pg_auth.go`), the value/type
projection (`pg_types.go` and the duck-type helpers), and the ClickHouse
HTTP front-end query rewrites (`ch_server.go`).

Go strings are modelled as `List Char` (all the scanned text is ASCII, so
byte indexing and char indexing coincide); Go byte slices as `List Nat`;
Go's `driver.Value` as a small inductive covering exactly the cases the
code handles; `map[K]V` as association lists with overwrite-on-insert.
Cryptographic primitives (HMAC-SHA-256, SHA-256) are uninterpreted
function parameters; the only facts used about them are the ones the code
relies on (e.g. an HMAC-SHA-256 output has 32 bytes).  Outputs of
`strconv.FormatFloat` on `float32`/`float64` column values and bound
parameters are carried as the strings they produce; for the decimal →
float64 → string pipeline of `toPgValue` the information-losing rounding
step (`duckdb.Decimal.Float64()`) is modelled exactly
(`duckDecimalFloat64Scale0`), so its precision loss is visible to the
theorems.  Go `panic` is modelled by `Option`/dedicated constructors.
-/

namespace DuckServer

/-! ## Decimal digit strings

Models of Go's decimal renderings: `strconv.FormatInt(v, 10)`,
`big.Int.String`, and digit parsing as in `strconv.ParseInt` restricted to
all-digit inputs (which is how `bindValues` uses it). -/

/-- The ASCII digit character for `d` (`d < 10`). -/
def digitChar (d : Nat) : Char := Char.ofNat (48 + d)

/-- Numeric value of an ASCII digit character. -/
def digitVal (c : Char) : Nat := c.toNat - 48

/-- Is `c` an ASCII decimal digit? (Go regexp `\d`, `chr >= '0' && chr <= '9'`.) -/
def isDigitChar (c : Char) : Bool := 48 ≤ c.toNat && c.toNat ≤ 57

/-- Fuel-bounded digit extraction (structural recursion on the fuel, so
that the kernel can evaluate it); `natDigitsRev` supplies enough fuel. -/
def natDigitsRevAux : Nat → Nat → List Char
  | _, 0 => []
  | 0, _ + 1 => []
  | fuel + 1, m + 1 => digitChar ((m + 1) % 10) :: natDigitsRevAux fuel ((m + 1) / 10)

/-- Little-endian list of decimal digit characters of `n`; empty for `0`. -/
def natDigitsRev (n : Nat) : List Char := natDigitsRevAux n n

/-- The canonical decimal numeral of `n`, as Go's `strconv.FormatInt(n, 10)`
and `big.Int.String` produce for non-negative values. -/
def natRepr (n : Nat) : List Char :=
  if n = 0 then ['0'] else (natDigitsRev n).reverse

/-- Decimal numeral of an integer, as Go's `big.Int.String` /
`strconv.FormatInt`: a `-` sign followed by the digits for negatives. -/
def intRepr (v : Int) : List Char :=
  if v < 0 then '-' :: natRepr v.natAbs else natRepr v.natAbs

/-- Value of a most-significant-first digit string. -/
def digitsToNat (l : List Char) : Nat :=
  l.foldl (fun a c => a * 10 + digitVal c) 0

/-- Left-pad a digit string with zeros to width `w`. -/
def padZeros (w : Nat) (s : List Char) : List Char :=
  List.replicate (w - s.length) '0' ++ s

/-! ## C4: the `show transaction_read_only` rewrite (pg_conn.go:305, 444) -/

/-- Models Go `strings.HasPrefix(s, pre)`: does `s` start with `pre`? -/
def goHasPrefix (s pre : String) : Bool := pre.data.isPrefixOf s.data

/-- The literal the rewrite compares against. -/
def showTransactionLiteral : String := "show transaction_read_only"

/-- The rewrite applied both in `PgConn.SimpleQuery` (pg_conn.go:305-307) and
in `PgConn.Prepare` (pg_conn.go:444-446):

    if strings.HasPrefix("show transaction_read_only", query) {
        query = "select 0"
    }

Note the argument order: the *literal* is the string searched, the query is
the candidate prefix. -/
def rewriteShowTransactionReadOnly (query : String) : String :=
  if goHasPrefix showTransactionLiteral query then "select 0" else query

/-! ## Engine values and the value/type projection (pg_types.go) -/

/-- A timestamp value as the Go `time.Time` fields that the layout string
`"2006-01-02 15:04:05.999999"` prints: date, time of day and microseconds. -/
structure GoTime where
  year : Nat
  month : Nat
  day : Nat
  hour : Nat
  minute : Nat
  second : Nat
  micro : Nat
deriving DecidableEq, Repr

/-- Engine-side `driver.Value`s in the cases `toPgValue` supports
(pg_types.go:53-115).  Values of Go type `float32`/`float64` reach the
wire through `strconv.FormatFloat`; the model carries that
stringification as data.  A `duckdb.Decimal` reaches the wire as
`strconv.FormatFloat(v.Float64(), 'f', -1, 64)` (pg_types.go:92-96):
`vdecimal` carries that final string — which is a function of the
*rounded* `Float64()` value alone — and the rounding step itself is
modelled exactly by `duckDecimalFloat64Scale0` below, against which the
float-path divergence of the decimal rendering is proved (claim C7). -/
inductive DuckValue where
  | vbool (b : Bool)
  | vint8 (i : Int)
  | vint16 (i : Int)
  | vint32 (i : Int)
  | vint64 (i : Int)
  | vfloat (rendered : List Char)
  | vstring (s : List Char)
  | vnull
  | vdecimal (float64Rendered : List Char)
  | vtime (t : GoTime)
  | varray (elems : List DuckValue)
deriving Repr

/-- Protocol type descriptor (pg_types.go:11-15). -/
structure PgType where
  oid : Int
  name : String
  typlen : Int
deriving DecidableEq, Repr

/-- The canonical OID table `pgTypes` (pg_types.go:17-28). -/
def pgTypes : List PgType :=
  [⟨16, "bool", 0⟩, ⟨17, "bytea", 0⟩, ⟨18, "char", 0⟩, ⟨20, "int8", 0⟩,
   ⟨21, "int4", 0⟩, ⟨700, "float4", 0⟩, ⟨701, "float8", 0⟩, ⟨25, "text", 0⟩,
   ⟨1700, "numeric", 0⟩, ⟨1114, "timestamp", 0⟩]

/-- `pgTypeFromOid` (pg_types.go:40-42): map lookup, zero value when absent. -/
def pgTypeFromOid (oid : Int) : PgType :=
  ((pgTypes.find? (fun t => t.oid = oid)).getD ⟨0, "", 0⟩)

/-- `pgOidFromType` (pg_types.go:44-46): map lookup, zero value when absent. -/
def pgOidFromType (name : String) : Int :=
  ((pgTypes.find? (fun t => t.name = name)).getD ⟨0, "", 0⟩).oid

/-- A projected wire value (pg_types.go:48-51): type descriptor plus
text-format bytes, `none` standing for Go's nil slice (SQL null). -/
structure PgValue where
  typ : PgType
  val : Option (List Char)
deriving Repr

/-- Zero-pad `n` to (at least) `w` digits, as Go time layouts `01`, `2006` do. -/
def padNat (w n : Nat) : List Char := padZeros w (natRepr n)

/-- Remove trailing `'0'` characters. -/
def trimTrailingZeros (s : List Char) : List Char :=
  (s.reverse.dropWhile (fun c => c = '0')).reverse

/-- Go `time.Time.Format("2006-01-02 15:04:05.999999")` on `t`: zero-padded
date and time fields; the `.999999` fragment prints the microseconds with
trailing zeros removed, and disappears entirely (dot included) when the
fractional second is zero. -/
def goFormatTimestamp (t : GoTime) : List Char :=
  padNat 4 t.year ++ '-' :: padNat 2 t.month ++ '-' :: padNat 2 t.day ++
  ' ' :: padNat 2 t.hour ++ ':' :: padNat 2 t.minute ++ ':' :: padNat 2 t.second ++
  (if t.micro = 0 then [] else '.' :: trimTrailingZeros (padZeros 6 (natRepr t.micro)))

/-- `strings.Join(res, ",")`. -/
def joinComma : List (List Char) → List Char
  | [] => []
  | [s] => s
  | s :: rest => s ++ ',' :: joinComma rest

mutual

/-- `toPgValue` (pg_types.go:53-115) on the supported cases.  The `bool`
case appends a terminating NUL byte (`cstr`), exactly as the code does. -/
def toPgValue : DuckValue → PgValue
  | .vbool b => ⟨pgTypeFromOid 16, some (if b then ['t', Char.ofNat 0] else ['f', Char.ofNat 0])⟩
  | .vint8 i => ⟨pgTypeFromOid 18, some (intRepr i)⟩
  | .vint16 i => ⟨pgTypeFromOid 21, some (intRepr i)⟩
  | .vint32 i => ⟨pgTypeFromOid 21, some (intRepr i)⟩
  | .vint64 i => ⟨pgTypeFromOid 20, some (intRepr i)⟩
  | .vfloat r => ⟨pgTypeFromOid 701, some r⟩
  | .vstring s => ⟨pgTypeFromOid 25, some s⟩
  | .vnull => ⟨pgTypeFromOid 25, none⟩
  | .vdecimal r => ⟨pgTypeFromOid 1700, some r⟩
  | .vtime t => ⟨pgTypeFromOid 25, some (goFormatTimestamp t)⟩
  | .varray es => ⟨pgTypeFromOid 25,
      some ('{' :: joinComma (toPgValueList es) ++ ['}'])⟩

/-- The element renderings of an array value (`string(pv.val)`, nil → ""). -/
def toPgValueList : List DuckValue → List (List Char)
  | [] => []
  | v :: vs => ((toPgValue v).val.getD []) :: toPgValueList vs

end

/-! ## Response frames and `PgConn.RunStmt` (pg_conn.go) -/

/-- One column of a RowDescription body: name, type OID, type length.
(The remaining fixed fields the code writes are all zero.) -/
structure ColDesc where
  name : String
  oid : Int
  typlen : Int
deriving DecidableEq, Repr

/-- The response frames `PgConn` emits, at the granularity the claims are
about.  `dataRow` keeps the per-column text values (`none` = null, length
-1 on the wire); `rowDescription` keeps the per-column descriptors. -/
inductive Frame where
  | rowDescription (cols : List ColDesc)
  | dataRow (fields : List (Option (List Char)))
  | commandComplete (tag : List Char)
  | emptyQueryResponse
  | errorResponse (msg : List Char)
  | parseComplete
  | bindComplete
  | noData
deriving Repr

/-- Frame classifiers used for counting. -/
def isRowDescription : Frame → Bool
  | .rowDescription _ => true
  | _ => false

def isDataRow : Frame → Bool
  | .dataRow _ => true
  | _ => false

def isCommandComplete : Frame → Bool
  | .commandComplete _ => true
  | _ => false

/-- `duck2pgTypeMap` (type helpers): engine type name → protocol type name. -/
def duck2pgTypeMap : List (String × String) :=
  [("BOOLEAN", "bool"), ("VARCHAR", "text"), ("INTEGER", "int4"),
   ("BIGINT", "int8"), ("DOUBLE", "float8"), ("TIMESTAMP", "timestamp"),
   ("DECIMAL", "numeric"), ("DATE", "date"), ("VARCHAR[]", "text")]

/-- `duck2pgType`: `none` models the `logrus.Panicf` branch on an unmapped
engine type name. -/
def duck2pgType (s : String) : Option String :=
  (duck2pgTypeMap.find? (fun p => p.1 = s)).map Prod.snd

/-- `PgConn.SendRowDescriptionWithColumnNameAndTypes` (pg_conn.go:339-351):
one descriptor per `(name, engine type)` pair, OID via `duck2pgType` then
`pgOidFromType`; `none` when `duck2pgType` panics. -/
def sendRowDescriptionWithTypes (cols : List (String × String)) : Option Frame :=
  (cols.mapM (fun c => (duck2pgType c.2).map
      (fun n => ColDesc.mk c.1 (pgOidFromType n) 0))).map Frame.rowDescription

/-- `PgConn.SendRowDescription` (pg_conn.go:353-383).  With no first row
every column is advertised as text (OID 25); with a first row each column's
OID and typlen come from `toPgValue` of that row's value. -/
def sendRowDescription (columnNames : List String) (firstRow : Option (List DuckValue)) : Frame :=
  match firstRow with
  | none => .rowDescription (columnNames.map (fun n => ColDesc.mk n 25 0))
  | some row => .rowDescription ((columnNames.zip row).map
      (fun p => ColDesc.mk p.1 (toPgValue p.2).typ.oid (toPgValue p.2).typ.typlen))

/-- `PgConn.SendRowData` (pg_conn.go:399-419): one field per value. -/
def sendRowData (values : List DuckValue) : Frame :=
  .dataRow (values.map (fun v => (toPgValue v).val))

/-- The CommandComplete tag `fmt.Sprintf("(%d row)", rowCount)`. -/
def rowTag (k : Nat) : List Char := '(' :: natRepr k ++ ' ' :: ['r', 'o', 'w', ')']

/-- `PgConn.RunStmt` (pg_conn.go:215-272), success path, as the ordered list
of frames written to the wire.  Inputs: whether the engine statement handle
is present (`stmt`), the rows the engine returns in order, the column
names, the schema-inference result used when the first fetch reports EOF
with `sendRowDesc` set.  `none` models the `duck2pgType` panic inside the
zero-row row-description path. -/
def runStmt (stmt : Option Unit) (rows : List (List DuckValue))
    (columnNames : List String) (inferred : List (String × String))
    (sendRowDesc : Bool) : Option (List Frame) :=
  match stmt with
  | none => some [.emptyQueryResponse]
  | some _ =>
    match sendRowDesc, rows with
    | true, [] =>
      (sendRowDescriptionWithTypes inferred).map
        (fun rd => [rd, .commandComplete (rowTag 0)])
    | true, r :: rest =>
      some (sendRowDescription columnNames (some r) :: sendRowData r ::
        (rest.map sendRowData ++ [.commandComplete (rowTag (rest.length + 1))]))
    | false, rs =>
      some (rs.map sendRowData ++ [.commandComplete (rowTag rs.length)])

/-! ## C2: the wire codec (wire.go, message.go)

The byte stream delivered by the peer is a `List Nat`; `Wire.lastMsg` is
the one live message with its declared length and whether `Message.Read`
has buffered its body (`Message.buf != nil`). -/

/-- The live message: declared length field and buffered-body flag. -/
structure LastMsg where
  length : Nat
  buffered : Bool
deriving DecidableEq, Repr

/-- Reader-side wire state: remaining input bytes and the live message. -/
structure WireState where
  input : List Nat
  lastMsg : Option LastMsg
deriving DecidableEq, Repr

/-- Big-endian 4-byte encoding of a 32-bit length. -/
def encodeLen (L : Nat) : List Nat :=
  [L / 2 ^ 24 % 256, L / 2 ^ 16 % 256, L / 2 ^ 8 % 256, L % 256]

/-- A tagged frame on the wire: `<tag:1><length:4 big-endian><body>`,
the length field counting itself plus the body (message.go:252-254). -/
def encodeFrame (tag : Nat) (body : List Nat) : List Nat :=
  tag :: encodeLen (body.length + 4) ++ body

/-- What one `Wire.ReadMessage` call produced: the new frame's tag and
decoded length, how many bytes of the previous body were discarded first,
and the state after the 5 header bytes were consumed. -/
structure ReadResult where
  tag : Nat
  length : Nat
  skipped : Nat
  state : WireState
deriving DecidableEq, Repr

/-- `Message.Skip` (message.go:152-158): discard `Length - 4` bytes unless
the body was already buffered by `Read` (or there is no wire). -/
def msgSkipAmount (m : LastMsg) : Nat :=
  if m.buffered then 0 else m.length - 4

/-- `Wire.ReadMessage` (wire.go:68-98): skip the unread tail of the live
message, then read the 5-byte header `<tag><length>`; `none` models an I/O
error (underrun). -/
def readMessage (w : WireState) : Option ReadResult :=
  let skip := match w.lastMsg with
    | none => 0
    | some m => msgSkipAmount m
  if skip ≤ w.input.length then
    match w.input.drop skip with
    | t :: b1 :: b2 :: b3 :: b4 :: rest =>
      let L := b1 * 2 ^ 24 + b2 * 2 ^ 16 + b3 * 2 ^ 8 + b4
      some ⟨t, L, skip, ⟨rest, some ⟨L, false⟩⟩⟩
    | _ => none
  else none

/-- `Message.Read` on the live message (message.go:160-179): consume and
buffer the `Length - 4` body bytes, so that the next `Skip` is a no-op. -/
def messageRead (w : WireState) : Option (List Nat × WireState) :=
  match w.lastMsg with
  | none => none
  | some m =>
    if m.buffered then some ([], w)
    else if m.length - 4 ≤ w.input.length then
      some (w.input.take (m.length - 4),
            ⟨w.input.drop (m.length - 4), some ⟨m.length, true⟩⟩)
    else none

/-! ## C3: `PgConn.Prepare` (pg_conn.go:438-467) -/

/-- A prepared statement as the connection stores it: SQL text, whether an
engine statement handle exists, and its declared input count. -/
structure StmtDescM where
  query : String
  hasStmt : Bool
  numInput : Nat
deriving DecidableEq, Repr

/-- The `map[string]*stmtDesc` of a connection, as an association list with
overwrite-on-insert (first binding wins on lookup). -/
abbrev StmtMap := List (String × StmtDescM)

/-- Go map insertion: the new binding shadows (replaces) any old one. -/
def stmtInsert (m : StmtMap) (k : String) (v : StmtDescM) : StmtMap :=
  (k, v) :: m.filter (fun p => p.1 ≠ k)

/-- `PgConn.Prepare` (pg_conn.go:438-467).  `enginePrepare` abstracts
`c.conn.Prepare`: error message, or the statement's `NumInput()`.  Returns
the updated statement map and the frame written. -/
def prepare (enginePrepare : String → Except String Nat) (stmts : StmtMap)
    (name sql : String) : StmtMap × Frame :=
  if sql = "" then
    (stmtInsert stmts name ⟨sql, false, 0⟩, .parseComplete)
  else
    let sql1 := rewriteShowTransactionReadOnly sql
    let sql2 := if goHasPrefix sql1 "SET extra_float_digits" then "select 1 limit 0" else sql1
    let sql3 := if goHasPrefix sql2 "SET application_name" then "select 1 limit 0" else sql2
    if name ≠ "" ∧ (stmts.lookup name).isSome then
      (stmts, .errorResponse ("prepared statement " ++ name ++ " already exists").data)
    else
      match enginePrepare sql3 with
      | .error e => (stmts, .errorResponse e.data)
      | .ok numInput => (stmtInsert stmts name ⟨sql3, true, numInput⟩, .parseComplete)

/-! ## SCRAM-SHA-256 authentication (pg_auth.go, second revision) -/

/-- `bytes.Split(data, []byte{','})`. -/
def splitOnChar (sep : Char) : List Char → List (List Char)
  | [] => [[]]
  | c :: rest =>
    match splitOnChar sep rest with
    | [] => [[c]]
    | g :: gs => if c = sep then [] :: g :: gs else (c :: g) :: gs

/-- `bytes.SplitN(kv, []byte{'='}, 2)`: split at the first `=`;
`none` when there is none (the entry is then skipped). -/
def splitEq2 (l : List Char) : Option (List Char × List Char) :=
  if l.contains '=' then
    some (l.takeWhile (fun c => c ≠ '='), (l.dropWhile (fun c => c ≠ '=')).tail)
  else none

/-- Go map insertion for the SASL key/value map (last binding wins). -/
def alistInsert (m : List (List Char × List Char)) (k v : List Char) :
    List (List Char × List Char) :=
  (k, v) :: m.filter (fun p => p.1 ≠ k)

/-- `parseSaslData` (pg_auth.go:227-237): comma-separated `k=v` entries;
entries without `=` are skipped. -/
def parseSaslData (data : List Char) : List (List Char × List Char) :=
  (splitOnChar ',' data).foldl
    (fun m kv =>
      match splitEq2 kv with
      | none => m
      | some (k, v) => alistInsert m k v) []

/-- Go map read with zero value: `m["p"]` is `""` when absent. -/
def saslLookup (m : List (List Char × List Char)) (k : List Char) : List Char :=
  (m.lookup k).getD []

/-- Value of a standard base64 alphabet character. -/
def b64Val (c : Char) : Option Nat :=
  if 65 ≤ c.toNat ∧ c.toNat ≤ 90 then some (c.toNat - 65)
  else if 97 ≤ c.toNat ∧ c.toNat ≤ 122 then some (c.toNat - 71)
  else if 48 ≤ c.toNat ∧ c.toNat ≤ 57 then some (c.toNat + 4)
  else if c = '+' then some 62
  else if c = '/' then some 63
  else none

/-- `base64.StdEncoding.DecodeString` with the error ignored, as the code
does: decode 4-character quanta, stop at the first invalid quantum
(returning the bytes decoded so far), handle `=` padding. -/
def b64decode : List Char → List Nat
  | c1 :: c2 :: c3 :: c4 :: rest =>
    match b64Val c1, b64Val c2 with
    | some v1, some v2 =>
      if c3 = '=' then [v1 * 4 + v2 / 16]
      else
        match b64Val c3 with
        | some v3 =>
          if c4 = '=' then [v1 * 4 + v2 / 16, v2 % 16 * 16 + v3 / 4]
          else
            match b64Val c4 with
            | some v4 =>
              (v1 * 4 + v2 / 16) :: (v2 % 16 * 16 + v3 / 4) :: (v3 % 4 * 64 + v4) ::
                b64decode rest
            | none => []
        | none => []
    | _, _ => []
  | _ => []

/-- The standard base64 alphabet character for a 6-bit value. -/
def b64Char (v : Nat) : Char :=
  if v < 26 then Char.ofNat (65 + v)
  else if v < 52 then Char.ofNat (97 + v - 26)
  else if v < 62 then Char.ofNat (48 + v - 52)
  else if v = 62 then '+' else '/'

/-- `base64.StdEncoding.EncodeToString`. -/
def b64encode : List Nat → List Char
  | [] => []
  | [x] => [b64Char (x / 4), b64Char (x % 4 * 16), '=', '=']
  | [x, y] => [b64Char (x / 4), b64Char (x % 4 * 16 + y / 16), b64Char (y % 16 * 4), '=']
  | x :: y :: z :: rest =>
    b64Char (x / 4) :: b64Char (x % 4 * 16 + y / 16) ::
    b64Char (y % 16 * 4 + z / 64) :: b64Char (z % 64) :: b64encode rest

/-- The XOR recovery loop (pg_auth.go:212-215):

    clientKey := make([]byte, len(clientSignature))
    for i := 0; i < len(clientSignature); i++ {
        clientKey[i] = clientProof[i] ^ clientSignature[i]
    }

`none` models the out-of-range panic when the proof is shorter than the
signature. -/
def xorClientKey (clientProof clientSignature : List Nat) : Option (List Nat) :=
  if clientSignature.length ≤ clientProof.length then
    some (List.zipWith Nat.xor (clientProof.take clientSignature.length) clientSignature)
  else none

/-- Parse of the stored credential against
`^SCRAM-SHA-256\$(\d+):(.*?)\$(.*?):(.*?)$` (pg_auth.go:185-189):
group 2 (the salt) is the lazy span up to the first `$` whose remainder
still contains a `:`. -/
def splitLazyDollar : List Char → Option (List Char × List Char)
  | [] => none
  | c :: rest =>
    if c = '$' ∧ rest.contains ':' then some ([], rest)
    else
      match splitLazyDollar rest with
      | some (a, b) => some (c :: a, b)
      | none => none

/-- Split at the first `:`; `none` when there is none. -/
def splitFirstColon (l : List Char) : Option (List Char × List Char) :=
  if l.contains ':' then
    some (l.takeWhile (fun c => c ≠ ':'), (l.dropWhile (fun c => c ≠ ':')).tail)
  else none

/-- Exact (case-sensitive) list prefix removal. -/
def dropPrefixChars : List Char → List Char → Option (List Char)
  | [], l => some l
  | _ :: _, [] => none
  | p :: ps, c :: cs => if c = p then dropPrefixChars ps cs else none

/-- Full credential parse: `SCRAM-SHA-256$<iters>:<salt>$<storedKey>:<serverKey>`;
`none` when the regex does not match (`len(groups) != 5`). -/
def parseScramCred (pass : List Char) : Option (List Char × List Char × List Char × List Char) :=
  match dropPrefixChars "SCRAM-SHA-256$".data pass with
  | none => none
  | some r1 =>
    let iters := r1.takeWhile isDigitChar
    if iters.length = 0 then none
    else
      match r1.drop iters.length with
      | ':' :: r2 =>
        match splitLazyDollar r2 with
        | none => none
        | some (salt, r3) =>
          match splitFirstColon r3 with
          | none => none
          | some (storedKeyB64, serverKeyB64) =>
            some (iters, salt, storedKeyB64, serverKeyB64)
      | _ => none

/-- The outcome of `PgConn.ScramSha256Auth` after the client's SASLResponse
arrived, at the granularity claims C5 and C10 need. -/
inductive AuthOutcome where
  | errorResponse (msg : List Char)
  | panicked
  | saslFinalAndOk (serverFinal : List Char)
deriving Repr

/-- The generic failure text (pg_auth.go:182, 188, 218). -/
def authFailMessage (u : String) : List Char :=
  ("password authentication failed for user " ++ u).data

/-- The cryptographic primitives and nonces of one authentication run.
`hmac` and `sha2` are uninterpreted stand-ins for HMAC-SHA-256 and
SHA-256. -/
structure ScramEnv where
  hmac : List Nat → List Nat → List Nat
  sha2 : List Nat → List Nat
  clientNonce : List Char
  serverNonceStr : List Char

/-- The proof-verification tail of `ScramSha256Auth` (pg_auth.go:211-224):
compute the client signature, XOR it with the proof (panicking when the
proof is too short), hash the candidate client key and compare with the
stored key; answer the server signature on success, the generic failure
otherwise. -/
def scramVerifyStep (env : ScramEnv) (u : String) (storedKey serverKey clientProof : List Nat)
    (authMessage : List Char) : AuthOutcome :=
  match xorClientKey clientProof (env.hmac storedKey (authMessage.map Char.toNat)) with
  | none => .panicked
  | some clientKey =>
    if env.sha2 clientKey = storedKey then
      .saslFinalAndOk ('v' :: '=' ::
        b64encode (env.hmac serverKey (authMessage.map Char.toNat)))
    else .errorResponse (authFailMessage u)

/-- `PgConn.ScramSha256Auth` (pg_auth.go:148-225) from the credential
lookup (`getPassword`, `.error` = no row for the user) through the final
verdict.  `clientFinalData` is the SASLResponse body. -/
def scramSha256Auth (env : ScramEnv) (getPassword : Except Unit String) (u : String)
    (clientFinalData : List Char) : AuthOutcome :=
  match getPassword with
  | .error _ => .errorResponse (authFailMessage u)
  | .ok pass =>
    match parseScramCred pass.data with
    | none => .errorResponse (authFailMessage u)
    | some (iters, salt, storedKeyB64, serverKeyB64) =>
      let combined := env.clientNonce ++ env.serverNonceStr
      let serverFirstResp := 'r' :: '=' :: combined ++ ',' :: 's' :: '=' :: salt ++
        ',' :: 'i' :: '=' :: iters
      let m := parseSaslData clientFinalData
      let authMessage := "n=,r=".data ++ env.clientNonce ++ ',' :: serverFirstResp ++
        ',' :: "c=biws,r=".data ++ combined
      scramVerifyStep env u (b64decode storedKeyB64) (b64decode serverKeyB64)
        (b64decode (saslLookup m ['p'])) authMessage

/-! ## C6: `bindValues` and the many-parameter Execute path (pg_conn.go) -/

/-- A bound parameter value.  `Bind` produces exactly these: `tryParseValue`
(message.go:429-437) yields `int64`, `float64` or `string`, and a -1 length
yields nil.  `float64` renderings (`strconv.FormatFloat(vv, 'f', -1, 64)`)
are carried opaquely. -/
inductive GoValue where
  | vstr (s : List Char)
  | vint (i : Int)
  | vfloat (rendered : List Char)
  | vnull
deriving Repr

/-- The single-quote character. -/
def squote : Char := Char.ofNat 39

/-- The literal rendering of one bound value in `bindValues`
(pg_conn.go:745-760): strings are single-quoted with embedded quotes
doubled (`strings.ReplaceAll(vv, "'", "''")`), integers and floats are
stringified, nil is the keyword `null`. -/
def renderBindValue : GoValue → List Char
  | .vstr s => squote :: (s.flatMap (fun c => if c = squote then [squote, squote] else [c])) ++ [squote]
  | .vint i => intRepr i
  | .vfloat r => r
  | .vnull => "null".data

/-- Number of leading ASCII digits (the `for ; i < len(seg)-1; i++` scan at
pg_conn.go:726-733, applied to the text after the `$`). -/
def digitCount : List Char → Nat
  | [] => 0
  | c :: cs => if isDigitChar c then digitCount cs + 1 else 0

/-- `strconv.ParseInt(seg[1:i+1], 10, 64)` on an all-digit string with the
error ignored: the exact value, clamped to `MaxInt64` on range error. -/
def goParseIntClamped (ds : List Char) : Nat :=
  min (digitsToNat ds) (2 ^ 63 - 1)

/-- `bindValues` (pg_conn.go:716-766): scan for `$`, substitute `$N`
placeholders.  `none` models the two panics: `$0` (index -1 into `args`)
and an unsupported value type (impossible for `GoValue`). -/
def bindValuesAux (args : List GoValue) : List Char → Option (List Char)
  | [] => some []
  | c :: rest =>
    if c = '$' then
      let n := digitCount rest
      if n = 0 then (bindValuesAux args rest).map (fun out => '$' :: out)
      else
        let v := goParseIntClamped (rest.take n)
        if args.length < v then
          (bindValuesAux args (rest.drop n)).map (fun out => "null".data ++ out)
        else if v = 0 then none
        else
          match args.get? (v - 1) with
          | some gv => (bindValuesAux args (rest.drop n)).map
              (fun out => renderBindValue gv ++ out)
          | none => none
    else (bindValuesAux args rest).map (fun out => c :: out)
termination_by l => l.length
decreasing_by
  all_goals simp [List.length_drop]
  all_goals omega

/-- The threshold `maxInputArgsUsePrepared` (pg_conn.go:213). -/
def maxInputArgsUsePrepared : Nat := 20

/-- How `PgConn.Execute` (pg_conn.go:509-532) runs a portal: with the
stored engine prepared statement, or with a freshly prepared substituted
text. -/
inductive ExecPlan where
  | usePrepared
  | useFresh (sql : List Char)
  | panicked
deriving Repr

/-- The dispatch in `PgConn.Execute` (pg_conn.go:520-531): above the
threshold, prepare and run `bindValues(p.stmt.query, p.values)` afresh;
otherwise run the stored statement with the bound values. -/
def executePlan (numInput : Nat) (query : List Char) (values : List GoValue) : ExecPlan :=
  if maxInputArgsUsePrepared < numInput then
    match bindValuesAux values query with
    | some out => .useFresh out
    | none => .panicked
  else .usePrepared

/-! ## C7: `duckDecimalToString` (duck type helpers) -/

/-- `duckDecimalToString(value duckdb.Decimal)`: `str := value.Value.String()`
(a `big.Int` decimal string), then either return it unchanged (scale 0),
or left-pad (`"0." + strings.Repeat("0", zeroCount) + str`), or insert the
point `scale` bytes from the right. -/
def duckDecimalToString (value : Int) (scale : Nat) : List Char :=
  let str := intRepr value
  if scale = 0 then str
  else if str.length ≤ scale then
    '0' :: '.' :: (List.replicate (scale - str.length) '0' ++ str)
  else
    str.take (str.length - scale) ++ '.' :: str.drop (str.length - scale)

/-- Claim C7's stated rendering, for the refinement comparison: the
*decimal-digit string* of the unscaled value (a digit string is unsigned,
so the sign is prepended), with the point inserted `scale` digits from the
right, left-padded with zeros when there are at most `scale` digits, no
point at all when the scale is 0. -/
def claimDecimalRendering (value : Int) (scale : Nat) : List Char :=
  let sign := if value < 0 then ['-'] else ([] : List Char)
  let digits := natRepr value.natAbs
  if scale = 0 then sign ++ digits
  else if digits.length ≤ scale then
    sign ++ '0' :: '.' :: (List.replicate (scale - digits.length) '0' ++ digits)
  else
    sign ++ digits.take (digits.length - scale) ++ '.' :: digits.drop (digits.length - scale)

/-- Little-endian list of the low `s` decimal digits of `n` (leading zeros
kept); proof scaffolding for the digit-splitting argument. -/
def lowDigitsRev (s n : Nat) : List Char :=
  (List.range s).map (fun i => digitChar (n / 10 ^ i % 10))

/-- Fuel-bounded binary digit count (structural, kernel-evaluable);
`natBits` supplies enough fuel. -/
def natBitsAux : Nat → Nat → Nat
  | _, 0 => 0
  | 0, _ + 1 => 0
  | fuel + 1, m + 1 => natBitsAux fuel ((m + 1) / 2) + 1

/-- Number of binary digits of `n`. -/
def natBits (n : Nat) : Nat := natBitsAux n n

/-- Round a non-negative integer to the nearest IEEE-754 binary64 value
(53 significant bits, ties to even), returned as the exact integer that
double denotes.  This is what converting an integer below the binary64
overflow threshold to `float64` computes. -/
def roundFloat64 (n : Nat) : Nat :=
  if n < 2 ^ 53 then n
  else
    let k := natBits n - 53
    let q := n / 2 ^ k
    let r := n % 2 ^ k
    let q' := if 2 ^ (k - 1) < r ∨ (r = 2 ^ (k - 1) ∧ q % 2 = 1) then q + 1 else q
    q' * 2 ^ k

/-- `duckdb.Decimal.Float64()` for a scale-0 decimal, as the exact integer
value of the resulting double (pg_types.go:92-96: with scale 0 the divisor
`math.Pow(10, 0)` is exactly `1.0`, the `big.Float` quotient is exact at
the operand's precision, and the only rounding is the final conversion to
binary64).  The wire bytes of the decimal on the PostgreSQL path are
`strconv.FormatFloat` applied to this double, hence a function of this
value alone. -/
def duckDecimalFloat64Scale0 (value : Int) : Int :=
  if value < 0 then -(roundFloat64 value.natAbs : Int) else (roundFloat64 value.natAbs : Int)

/-! ## C9: the ClickHouse `LIMIT a, b` rewrite (ch_server.go:78, 86) -/

/-- Go regexp `\s` (`[\t\n\f\r ]`). -/
def isGoSpace (c : Char) : Bool :=
  c = ' ' || c = Char.ofNat 9 || c = Char.ofNat 10 || c = Char.ofNat 12 || c = Char.ofNat 13

/-- ASCII-case-insensitive prefix removal (`pat` given in lowercase),
modelling the `(?i)` literal `LIMIT`. -/
def dropPrefixCI : List Char → List Char → Option (List Char)
  | [], l => some l
  | _ :: _, [] => none
  | p :: ps, c :: cs => if c.toLower = p then dropPrefixCI ps cs else none

/-- Match of `(?i)LIMIT\s+(\d+)\s*,\s*(\d+)` at the head of `l`.  All the
quantified character classes are pairwise disjoint with what follows them,
so the leftmost-first greedy match is the maximal-munch one computed here.
Returns the matched length and the two digit groups. -/
def matchLimitAt (l : List Char) : Option (Nat × List Char × List Char) :=
  match dropPrefixCI "limit".data l with
  | none => none
  | some r1 =>
    let sp1 := (r1.takeWhile isGoSpace).length
    if sp1 = 0 then none
    else
      let r2 := r1.drop sp1
      let ds1 := r2.takeWhile isDigitChar
      if ds1.length = 0 then none
      else
        let r3 := r2.drop ds1.length
        let sp2 := (r3.takeWhile isGoSpace).length
        match r3.drop sp2 with
        | c :: r5 =>
          if c = ',' then
            let sp3 := (r5.takeWhile isGoSpace).length
            let r6 := r5.drop sp3
            let ds2 := r6.takeWhile isDigitChar
            if ds2.length = 0 then none
            else some (5 + sp1 + ds1.length + sp2 + 1 + sp3 + ds2.length, ds1, ds2)
          else none
        | [] => none

/-- `limitRewriteRegexp.ReplaceAllString(query, "LIMIT $2 OFFSET $1")`
(ch_server.go:86): scan left to right, replace each leftmost
non-overlapping match by the expanded template, copy everything else. -/
def limitRewriteScan : List Char → List Char
  | [] => []
  | c :: rest =>
    match matchLimitAt (c :: rest) with
    | some (len, a, b) =>
      "LIMIT ".data ++ b ++ " OFFSET ".data ++ a ++ limitRewriteScan (rest.drop (len - 1))
    | none => c :: limitRewriteScan rest
termination_by l => l.length
decreasing_by
  all_goals simp [List.length_drop]
  all_goals omega

/-- Decidable absence of any match anywhere in `l`. -/
def noLimitMatch (l : List Char) : Bool :=
  (List.range (l.length + 1)).all (fun i => (matchLimitAt (l.drop i)).isNone)

/-- Decidable absence of a match starting inside the first `p.length`
positions of `p ++ s`. -/
def noMatchInRegion (p s : List Char) : Bool :=
  (List.range p.length).all (fun i => (matchLimitAt ((p ++ s).drop i)).isNone)

/-- The literal occurrence `LIMIT a, b` of claim C9. -/
def limitOcc (a b : Nat) : List Char :=
  "LIMIT ".data ++ natRepr a ++ ',' :: ' ' :: natRepr b

/-! ## Shared digit-string lemmas -/

theorem natDigitsRevAux_congr (n : Nat) :
    ∀ (f₁ f₂ : Nat), n ≤ f₁ → n ≤ f₂ → natDigitsRevAux f₁ n = natDigitsRevAux f₂ n := by
  induction n using Nat.strong_induction_on with
  | _ n ih =>
    intro f₁ f₂ h₁ h₂
    match n, f₁, f₂ with
    | 0, a, b => cases a <;> cases b <;> rfl
    | m + 1, a + 1, b + 1 =>
      unfold natDigitsRevAux
      rw [ih ((m + 1) / 10) (Nat.div_lt_self (Nat.succ_pos m) (by omega)) a b
        (by omega) (by omega)]

theorem natDigitsRev_succ (n : Nat) (h : 0 < n) :
    natDigitsRev n = digitChar (n % 10) :: natDigitsRev (n / 10) := by
  match n, h with
  | m + 1, _ =>
    show natDigitsRevAux (m + 1) (m + 1) = _
    unfold natDigitsRevAux
    rw [natDigitsRevAux_congr ((m + 1) / 10) m ((m + 1) / 10) (by omega) le_rfl]
    rfl

theorem digitVal_digitChar {d : Nat} (h : d < 10) : digitVal (digitChar d) = d := by
  interval_cases d <;> decide

theorem isDigitChar_digitChar {d : Nat} (h : d < 10) : isDigitChar (digitChar d) = true := by
  interval_cases d <;> decide

theorem natDigitsRev_all_digits (n : Nat) : ∀ c ∈ natDigitsRev n, isDigitChar c = true := by
  induction n using Nat.strong_induction_on with
  | _ n ih =>
    match n with
    | 0 => intro c hc; simp [natDigitsRev, natDigitsRevAux] at hc
    | Nat.succ m =>
      intro c hc
      rw [natDigitsRev_succ (m + 1) (Nat.succ_pos m)] at hc
      rcases List.mem_cons.mp hc with h | h
      · subst h; exact isDigitChar_digitChar (Nat.mod_lt _ (by omega))
      · exact ih ((m + 1) / 10) (Nat.div_lt_self (Nat.succ_pos m) (by omega)) c h

theorem natRepr_all_digits (n : Nat) : ∀ c ∈ natRepr n, isDigitChar c = true := by
  intro c hc
  unfold natRepr at hc
  split at hc
  · simp at hc; subst hc; decide
  · exact natDigitsRev_all_digits n c (List.mem_reverse.mp hc)

theorem natRepr_ne_nil (n : Nat) : natRepr n ≠ [] := by
  unfold natRepr
  split
  · simp
  · simp only [ne_eq, List.reverse_eq_nil_iff]
    match n with
    | Nat.succ m => rw [natDigitsRev_succ (m + 1) (Nat.succ_pos m)]; simp

theorem digitsToNat_append_digit (l : List Char) (c : Char) :
    digitsToNat (l ++ [c]) = 10 * digitsToNat l + digitVal c := by
  unfold digitsToNat
  rw [List.foldl_append]
  simp [Nat.mul_comm]

theorem digitsToNat_natDigitsRev_reverse (n : Nat) :
    digitsToNat (natDigitsRev n).reverse = n := by
  induction n using Nat.strong_induction_on with
  | _ n ih =>
    match n with
    | 0 => simp [natDigitsRev, natDigitsRevAux, digitsToNat]
    | Nat.succ m =>
      rw [natDigitsRev_succ (m + 1) (Nat.succ_pos m), List.reverse_cons,
        digitsToNat_append_digit,
        ih ((m + 1) / 10) (Nat.div_lt_self (Nat.succ_pos m) (by omega)),
        digitVal_digitChar (Nat.mod_lt _ (by omega))]
      omega

theorem digitsToNat_natRepr (n : Nat) : digitsToNat (natRepr n) = n := by
  unfold natRepr
  split
  · subst ‹n = 0›; decide
  · exact digitsToNat_natDigitsRev_reverse n

theorem natDigitsRev_length_le_iff (s : Nat) :
    ∀ n : Nat, (natDigitsRev n).length ≤ s ↔ n < 10 ^ s := by
  induction s with
  | zero =>
    intro n
    match n with
    | 0 => simp [natDigitsRev, natDigitsRevAux]
    | Nat.succ m => rw [natDigitsRev_succ (m + 1) (Nat.succ_pos m)]; simp
  | succ s ih =>
    intro n
    match n with
    | 0 => simp [natDigitsRev, natDigitsRevAux]
    | Nat.succ m =>
      rw [natDigitsRev_succ (m + 1) (Nat.succ_pos m)]
      simp only [List.length_cons, Nat.add_le_add_iff_right, ih]
      rw [pow_succ]
      exact Nat.div_lt_iff_lt_mul (by omega)

theorem natRepr_length_le_iff {s n : Nat} (hs : 0 < s) :
    ((natRepr n).length ≤ s ↔ n < 10 ^ s) := by
  unfold natRepr
  split
  · subst ‹n = 0›
    simp only [List.length_singleton]
    constructor
    · intro _; positivity
    · intro _; omega
  · rw [List.length_reverse]; exact natDigitsRev_length_le_iff s n

/-! ## C4 -/

/-- C4 (counterexample): the query `show transaction_read_only;` *begins
with* the literal `show transaction_read_only`, yet the simple-query /
Parse rewrite leaves it unchanged (it is not replaced by `select 0`),
because the code passes the arguments to `strings.HasPrefix` in the
opposite order. -/
theorem c4_counterexample :
    goHasPrefix "show transaction_read_only;" showTransactionLiteral = true ∧
    rewriteShowTransactionReadOnly "show transaction_read_only;" =
      "show transaction_read_only;" := by
  constructor
  · decide
  · decide

/-- C4 (amended): the rewrite replaces a query `q` by `select 0` precisely
when `q` is a *prefix of* the literal `show transaction_read_only` (the
converse of the claimed direction); every other query is passed on
unchanged. -/
theorem c4_rewrite_characterization (q : String) :
    (goHasPrefix showTransactionLiteral q = true →
      rewriteShowTransactionReadOnly q = "select 0") ∧
    (goHasPrefix showTransactionLiteral q = false →
      rewriteShowTransactionReadOnly q = q) := by
  unfold rewriteShowTransactionReadOnly
  constructor
  · intro h; simp [h]
  · intro h; simp [h]

/-- C4 witness: the strict prefix `show transaction` is rewritten. -/
theorem c4_witness :
    rewriteShowTransactionReadOnly "show transaction" = "select 0" :=
  (c4_rewrite_characterization "show transaction").1 (by decide)

/-! ## C1 -/

/-- C1: on the simple-query path (`RunStmt` with `sendRowDesc`), a
successful execution returning `k` rows emits exactly one RowDescription,
exactly `k` DataRow frames, and exactly one CommandComplete, which is the
final frame and carries the tag `(k row)`; and `RunStmt` on an absent
statement handle (empty SQL), as Execute reaches it, emits exactly
`EmptyQueryResponse`. -/
theorem c1_runStmt_frames (rows : List (List DuckValue)) (names : List String)
    (inferred : List (String × String)) (frames : List Frame)
    (h : runStmt (some ()) rows names inferred true = some frames) :
    frames.countP isRowDescription = 1 ∧
    frames.countP isDataRow = rows.length ∧
    frames.countP isCommandComplete = 1 ∧
    frames.getLast? = some (.commandComplete (rowTag rows.length)) ∧
    runStmt none rows names inferred false = some [.emptyQueryResponse] := by
  match rows with
  | [] =>
    unfold runStmt at h
    rw [Option.map_eq_some'] at h
    obtain ⟨rd, hrd, hfr⟩ := h
    unfold sendRowDescriptionWithTypes at hrd
    rw [Option.map_eq_some'] at hrd
    obtain ⟨cols, _, hcols⟩ := hrd
    subst hfr; subst hcols
    refine ⟨?_, ?_, ?_, ?_, rfl⟩ <;>
      simp [isRowDescription, isDataRow, isCommandComplete, List.countP_cons]
  | r :: rest =>
    unfold runStmt at h
    rw [Option.some_inj] at h
    subst h
    refine ⟨?_, ?_, ?_, ?_, rfl⟩
    · simp [List.countP_cons, List.countP_append, List.countP_map, Function.comp_def,
        sendRowData, sendRowDescription, isRowDescription]
    · simp [List.countP_cons, List.countP_append, List.countP_map, Function.comp_def,
        sendRowData, sendRowDescription, isDataRow, isRowDescription, isCommandComplete]
    · simp [List.countP_cons, List.countP_append, List.countP_map, Function.comp_def,
        sendRowData, sendRowDescription, isCommandComplete]
    · rw [show sendRowDescription names (some r) :: sendRowData r ::
          (rest.map sendRowData ++ [Frame.commandComplete (rowTag (rest.length + 1))]) =
          (sendRowDescription names (some r) :: sendRowData r :: rest.map sendRowData) ++
          [Frame.commandComplete (rowTag (rest.length + 1))] from by simp,
        List.getLast?_concat]
      simp

/-- C1 witness: a one-row result produces RowDescription, one DataRow and
CommandComplete `(1 row)`. -/
theorem c1_witness :
    ∃ frames, runStmt (some ()) [[DuckValue.vint64 7]] ["a"] [] true = some frames ∧
      frames.countP isRowDescription = 1 ∧
      frames.countP isDataRow = 1 ∧
      frames.countP isCommandComplete = 1 ∧
      frames.getLast? = some (.commandComplete (rowTag 1)) ∧
      runStmt none [[DuckValue.vint64 7]] ["a"] [] false = some [.emptyQueryResponse] := by
  refine ⟨_, rfl, ?_⟩
  exact c1_runStmt_frames [[DuckValue.vint64 7]] ["a"] [] _ rfl

/-! ## C3 -/

/-- C3 (counterexample): a Parse for the *empty* (unnamed) statement name
with non-empty SQL, while an entry for that name exists, is answered with
ParseComplete — not an ErrorResponse — and the old entry is replaced: the
duplicate-name check at pg_conn.go:455-459 only guards non-empty names. -/
theorem c3_counterexample :
    (prepare (fun _ => .ok 0) [("", ⟨"select 1", true, 0⟩)] "" "select 2").2 =
      Frame.parseComplete ∧
    (prepare (fun _ => .ok 0) [("", ⟨"select 1", true, 0⟩)] "" "select 2").1.lookup "" =
      some ⟨"select 2", true, 0⟩ := by
  constructor
  · rfl
  · rfl

/-- C3 (amended): for every *non-empty* prepared-statement name, a Parse
with non-empty SQL while an entry for that name already exists is answered
with an ErrorResponse, and the statement map — in particular the existing
entry — is left unchanged. -/
theorem c3_prepare_duplicate_name (eng : String → Except String Nat) (stmts : StmtMap)
    (name sql : String) (d : StmtDescM)
    (hn : name ≠ "") (hs : sql ≠ "") (hd : stmts.lookup name = some d) :
    prepare eng stmts name sql =
      (stmts, .errorResponse ("prepared statement " ++ name ++ " already exists").data) ∧
    (prepare eng stmts name sql).1.lookup name = some d := by
  have hmain : prepare eng stmts name sql =
      (stmts, .errorResponse ("prepared statement " ++ name ++ " already exists").data) := by
    unfold prepare
    rw [if_neg hs, if_pos ⟨hn, by rw [hd]; rfl⟩]
  exact ⟨hmain, by rw [hmain]; exact hd⟩

/-- C3 witness: re-parsing the existing name `s1` errors and keeps the
entry. -/
theorem c3_witness :
    prepare (fun _ => .ok 0) [("s1", ⟨"q", true, 0⟩)] "s1" "select 1" =
      ([("s1", ⟨"q", true, 0⟩)],
        .errorResponse ("prepared statement " ++ "s1" ++ " already exists").data) ∧
    (prepare (fun _ => .ok 0) [("s1", ⟨"q", true, 0⟩)] "s1" "select 1").1.lookup "s1" =
      some ⟨"q", true, 0⟩ :=
  c3_prepare_duplicate_name (fun _ => .ok 0) [("s1", ⟨"q", true, 0⟩)] "s1" "select 1"
    ⟨"q", true, 0⟩ (by decide) (by decide) rfl

/-! ## C5 and C10: authentication -/

theorem scramVerifyStep_error_msg (env : ScramEnv) (u : String)
    (storedKey serverKey clientProof : List Nat) (authMessage : List Char) (m : List Char)
    (h : scramVerifyStep env u storedKey serverKey clientProof authMessage =
      .errorResponse m) : m = authFailMessage u := by
  unfold scramVerifyStep at h
  split at h
  · simp at h
  · split at h
    · simp at h
    · exact (AuthOutcome.errorResponse.inj h).symm

theorem scram_errorResponse_msg (env : ScramEnv) (gp : Except Unit String) (u : String)
    (cf : List Char) (m : List Char)
    (h : scramSha256Auth env gp u cf = .errorResponse m) : m = authFailMessage u := by
  unfold scramSha256Auth at h
  split at h
  · exact (AuthOutcome.errorResponse.inj h).symm
  · split at h
    · exact (AuthOutcome.errorResponse.inj h).symm
    · exact scramVerifyStep_error_msg _ _ _ _ _ _ _ h

/-- C5: whenever a SCRAM-SHA-256 authentication attempt for user `u` ends
in an ErrorResponse — in particular when the user has no credential
record, and when the user exists but the stored credential is malformed or
the client proof fails verification — the message is the single generic
string `password authentication failed for user <u>`, so any two failing
attempts for `u` are answered identically and the response does not reveal
whether the user exists. -/
theorem c5_auth_failure_uniform (env₁ env₂ : ScramEnv) (gp₁ gp₂ : Except Unit String)
    (u : String) (cf₁ cf₂ m₁ m₂ : List Char)
    (h₁ : scramSha256Auth env₁ gp₁ u cf₁ = .errorResponse m₁)
    (h₂ : scramSha256Auth env₂ gp₂ u cf₂ = .errorResponse m₂) :
    m₁ = authFailMessage u ∧ m₂ = authFailMessage u ∧
    scramSha256Auth env₁ gp₁ u cf₁ = scramSha256Auth env₂ gp₂ u cf₂ := by
  have e₁ := scram_errorResponse_msg env₁ gp₁ u cf₁ m₁ h₁
  have e₂ := scram_errorResponse_msg env₂ gp₂ u cf₂ m₂ h₂
  refine ⟨e₁, e₂, ?_⟩
  rw [h₁, h₂, e₁, e₂]

/-- C5 witness: a missing-user failure and a malformed-credential failure
for `alice` produce the same response. -/
theorem c5_witness :
    scramSha256Auth ⟨fun _ _ => List.replicate 32 0, fun _ => [], [], []⟩
        (.error ()) "alice" [] =
      scramSha256Auth ⟨fun _ _ => List.replicate 32 0, fun _ => [], [], []⟩
        (.ok "x") "alice" [] :=
  (c5_auth_failure_uniform ⟨fun _ _ => List.replicate 32 0, fun _ => [], [], []⟩
    ⟨fun _ _ => List.replicate 32 0, fun _ => [], [], []⟩
    (.error ()) (.ok "x") "alice" [] [] _ _ rfl rfl).2.2

/-- C10: the XOR loop is *not* in-range for every SASLResponse body.  With
a well-formed stored credential and any HMAC-SHA-256 (whose output has 32
bytes), the SASLResponse body `c=biws,r=abcxyz` — which carries no `p`
field, so the decoded client proof is empty — drives `ScramSha256Auth`
into the out-of-range access `clientProof[0]` (pg_auth.go:214): the model
evaluates to the panic outcome. -/
theorem c10_short_proof_panics :
    scramSha256Auth ⟨fun _ _ => List.replicate 32 0, fun _ => [], "abc".data, "xyz".data⟩
      (.ok "SCRAM-SHA-256$4096:c2FsdA==$c3Q=:c2s=") "bob" "c=biws,r=abcxyz".data =
      .panicked ∧
    saslLookup (parseSaslData "c=biws,r=abcxyz".data) ['p'] = [] ∧
    xorClientKey (b64decode []) (List.replicate 32 0) = none := by
  refine ⟨rfl, rfl, rfl⟩

/-! ## C2: skip discipline of `Wire.ReadMessage` -/

theorem readMessage_frame (lm : Option LastMsg) (junk : List Nat) (t : Nat)
    (b tail : List Nat)
    (hsk : (match lm with | none => 0 | some m => msgSkipAmount m) = junk.length)
    (hlen : b.length + 4 < 2 ^ 32) :
    readMessage ⟨junk ++ (encodeFrame t b ++ tail), lm⟩ =
      some ⟨t, b.length + 4, junk.length, ⟨b ++ tail, some ⟨b.length + 4, false⟩⟩⟩ := by
  unfold readMessage
  dsimp only
  rw [hsk]
  rw [if_pos (by simp [encodeFrame, encodeLen, List.length_append])]
  rw [show junk ++ (encodeFrame t b ++ tail) =
      junk ++ ((t :: encodeLen (b.length + 4)) ++ (b ++ tail)) by
    simp [encodeFrame]]
  rw [List.drop_left]
  unfold encodeLen
  simp only [List.cons_append, List.nil_append]
  simp only [Option.some.injEq, ReadResult.mk.injEq, WireState.mk.injEq,
    LastMsg.mk.injEq, true_and, and_true]
  exact ⟨by omega, by omega⟩

/-- C2: reading from a stream that holds frame `(t₁, b₁)` followed by frame
`(t₂, b₂)`: the first `ReadMessage` consumes the 5-byte header and skips
nothing; if the first body is never `Read`, the next `ReadMessage` first
skips exactly `L₁ - 4 = len b₁` bytes (the whole unread body) before
decoding the second header; if the body *was* fully buffered by `Read`,
the next `ReadMessage` skips zero bytes.  Lengths decode correctly in
both cases. -/
theorem c2_read_message_skips (t₁ t₂ : Nat) (b₁ b₂ rest : List Nat)
    (h₁ : b₁.length + 4 < 2 ^ 32) (h₂ : b₂.length + 4 < 2 ^ 32) :
    readMessage ⟨encodeFrame t₁ b₁ ++ (encodeFrame t₂ b₂ ++ rest), none⟩ =
      some ⟨t₁, b₁.length + 4, 0,
        ⟨b₁ ++ (encodeFrame t₂ b₂ ++ rest), some ⟨b₁.length + 4, false⟩⟩⟩ ∧
    readMessage ⟨b₁ ++ (encodeFrame t₂ b₂ ++ rest), some ⟨b₁.length + 4, false⟩⟩ =
      some ⟨t₂, b₂.length + 4, b₁.length,
        ⟨b₂ ++ rest, some ⟨b₂.length + 4, false⟩⟩⟩ ∧
    messageRead ⟨b₁ ++ (encodeFrame t₂ b₂ ++ rest), some ⟨b₁.length + 4, false⟩⟩ =
      some (b₁, ⟨encodeFrame t₂ b₂ ++ rest, some ⟨b₁.length + 4, true⟩⟩) ∧
    readMessage ⟨encodeFrame t₂ b₂ ++ rest, some ⟨b₁.length + 4, true⟩⟩ =
      some ⟨t₂, b₂.length + 4, 0, ⟨b₂ ++ rest, some ⟨b₂.length + 4, false⟩⟩⟩ := by
  refine ⟨?_, ?_, ?_, ?_⟩
  · have := readMessage_frame none [] t₁ b₁ (encodeFrame t₂ b₂ ++ rest) rfl h₁
    simpa using this
  · have := readMessage_frame (some ⟨b₁.length + 4, false⟩) b₁ t₂ b₂ rest
      (by simp [msgSkipAmount]) h₂
    simpa using this
  · unfold messageRead
    dsimp only
    rw [if_neg (by simp), if_pos (by simp [List.length_append]), Nat.add_sub_cancel,
      List.take_left, List.drop_left]
  · have := readMessage_frame (some ⟨b₁.length + 4, true⟩) [] t₂ b₂ rest
      (by simp [msgSkipAmount]) h₂
    simpa using this

/-- C2 witness: frames `(81, [9])` and `(88, [])` back to back. -/
theorem c2_witness :
    readMessage ⟨encodeFrame 81 [9] ++ (encodeFrame 88 [] ++ [7]), none⟩ =
      some ⟨81, ([9] : List Nat).length + 4, 0,
        ⟨[9] ++ (encodeFrame 88 [] ++ [7]), some ⟨([9] : List Nat).length + 4, false⟩⟩⟩ ∧
    readMessage ⟨[9] ++ (encodeFrame 88 [] ++ [7]), some ⟨([9] : List Nat).length + 4, false⟩⟩ =
      some ⟨88, ([] : List Nat).length + 4, ([9] : List Nat).length,
        ⟨[] ++ [7], some ⟨([] : List Nat).length + 4, false⟩⟩⟩ ∧
    messageRead ⟨[9] ++ (encodeFrame 88 [] ++ [7]), some ⟨([9] : List Nat).length + 4, false⟩⟩ =
      some ([9], ⟨encodeFrame 88 [] ++ [7], some ⟨([9] : List Nat).length + 4, true⟩⟩) ∧
    readMessage ⟨encodeFrame 88 [] ++ [7], some ⟨([9] : List Nat).length + 4, true⟩⟩ =
      some ⟨88, ([] : List Nat).length + 4, 0, ⟨[] ++ [7], some ⟨([] : List Nat).length + 4, false⟩⟩⟩ :=
  c2_read_message_skips 81 88 [9] [] [7] (by decide) (by decide)

/-! ## C8: timestamp projection -/

theorem get?_zip_eq_some {α β : Type} :
    ∀ (l1 : List α) (l2 : List β) (i : Nat) (a : α) (b : β),
      l1.get? i = some a → l2.get? i = some b → (l1.zip l2).get? i = some (a, b)
  | x :: _, y :: _, 0, _, _, h1, h2 => by
      simp only [List.get?_cons_zero, Option.some.injEq] at h1 h2
      simp [List.zip_cons_cons, h1, h2]
  | x :: xs, y :: ys, i + 1, a, b, h1, h2 => by
      simp only [List.get?_cons_succ] at h1 h2
      simpa using get?_zip_eq_some xs ys i a b h1 h2
  | [], _, i, a, b, h1, _ => by simp at h1
  | _ :: _, [], i, a, b, _, h2 => by cases i <;> simp at h2

theorem dot_not_mem_padZeros_natRepr (w n : Nat) :
    ('.' : Char) ∉ padZeros w (natRepr n) := by
  intro h
  rw [padZeros, List.mem_append] at h
  rcases h with h | h
  · exact absurd (List.eq_of_mem_replicate h) (by decide)
  · exact absurd (natRepr_all_digits n _ h) (by decide)

/-- C8 (counterexample): an engine timestamp with a whole-second value is
rendered *without* any fractional part (the Go layout `.999999` trims
trailing zeros and drops the dot entirely), not as `...ffffff`, and it is
tagged with the text OID 25, not the timestamp OID 1114. -/
theorem c8_counterexample :
    (toPgValue (.vtime ⟨2024, 1, 2, 3, 4, 5, 0⟩)).typ.oid = 25 ∧
    ¬ (toPgValue (.vtime ⟨2024, 1, 2, 3, 4, 5, 0⟩)).typ.oid = 1114 ∧
    (toPgValue (.vtime ⟨2024, 1, 2, 3, 4, 5, 0⟩)).val = some "2024-01-02 03:04:05".data ∧
    ¬ (toPgValue (.vtime ⟨2024, 1, 2, 3, 4, 5, 0⟩)).val =
        some "2024-01-02 03:04:05.000000".data := by
  refine ⟨?_, ?_, ?_, ?_⟩ <;> decide

/-- C8 (amended): every engine timestamp in a result row is rendered as
`YYYY-MM-DD HH:MM:SS` followed — only when the microseconds are nonzero —
by `.` and the microsecond digits with trailing zeros trimmed, and is
tagged with the *text* OID 25 (typlen 0); that OID 25 is what a
RowDescription inferred from first-row values advertises for the column. -/
theorem c8_timestamp_projection (t : GoTime) (names : List String) (row : List DuckValue)
    (i : Nat) (nm : String)
    (hrow : row.get? i = some (.vtime t)) (hname : names.get? i = some nm) :
    toPgValue (.vtime t) = ⟨⟨25, "text", 0⟩, some (goFormatTimestamp t)⟩ ∧
    (t.micro = 0 → ('.' : Char) ∉ goFormatTimestamp t) ∧
    ∃ cols, sendRowDescription names (some row) = .rowDescription cols ∧
      cols.get? i = some ⟨nm, 25, 0⟩ := by
  refine ⟨rfl, ?_, ?_⟩
  · intro hm
    unfold goFormatTimestamp
    rw [hm]
    have h4 := dot_not_mem_padZeros_natRepr 4
    have h2 := dot_not_mem_padZeros_natRepr 2
    simp [padNat, List.mem_append, List.mem_cons, h4, h2]
  · refine ⟨_, rfl, ?_⟩
    rw [List.get?_map, get?_zip_eq_some names row i nm (.vtime t) hname hrow]
    rfl

/-- C8 witness: a concrete one-column row. -/
theorem c8_witness :
    toPgValue (.vtime ⟨2024, 1, 2, 3, 4, 5, 0⟩) =
      ⟨⟨25, "text", 0⟩, some (goFormatTimestamp ⟨2024, 1, 2, 3, 4, 5, 0⟩)⟩ ∧
    ((⟨2024, 1, 2, 3, 4, 5, 0⟩ : GoTime).micro = 0 →
      ('.' : Char) ∉ goFormatTimestamp ⟨2024, 1, 2, 3, 4, 5, 0⟩) ∧
    ∃ cols, sendRowDescription ["ts"] (some [.vtime ⟨2024, 1, 2, 3, 4, 5, 0⟩]) =
        .rowDescription cols ∧
      cols.get? 0 = some ⟨"ts", 25, 0⟩ :=
  c8_timestamp_projection ⟨2024, 1, 2, 3, 4, 5, 0⟩ ["ts"]
    [.vtime ⟨2024, 1, 2, 3, 4, 5, 0⟩] 0 "ts" rfl rfl

/-! ## C7: decimal rendering -/

theorem intRepr_ofNat (v : Nat) : intRepr (v : Int) = natRepr v := by
  unfold intRepr
  rw [if_neg (by omega)]
  simp

theorem lowDigitsRev_length (s n : Nat) : (lowDigitsRev s n).length = s := by
  simp [lowDigitsRev]

theorem lowDigitsRev_succ (s n : Nat) :
    lowDigitsRev (s + 1) n = digitChar (n % 10) :: lowDigitsRev s (n / 10) := by
  unfold lowDigitsRev
  rw [List.range_succ_eq_map]
  simp only [List.map_cons, List.map_map, pow_zero, Nat.div_one]
  congr 1
  refine List.map_congr_left ?_
  intro i _
  simp only [Function.comp_apply, Nat.succ_eq_add_one]
  rw [pow_succ, mul_comm, ← Nat.div_div_eq_div_mul]

theorem natDigitsRev_split (s : Nat) :
    ∀ n, 0 < n / 10 ^ s → natDigitsRev n = lowDigitsRev s n ++ natDigitsRev (n / 10 ^ s) := by
  induction s with
  | zero => intro n _; simp [lowDigitsRev]
  | succ s ih =>
    intro n h
    have hn : 0 < n := by
      rcases Nat.eq_zero_or_pos n with h0 | h0
      · rw [h0] at h; simp at h
      · exact h0
    have hrec : (n / 10) / 10 ^ s = n / 10 ^ (s + 1) := by
      rw [Nat.div_div_eq_div_mul, pow_succ, mul_comm]
    rw [natDigitsRev_succ n hn, lowDigitsRev_succ, List.cons_append,
      ih (n / 10) (by rw [hrec]; exact h), hrec]

theorem lowDigitsRev_mod (s : Nat) :
    ∀ n, lowDigitsRev s (n % 10 ^ s) = lowDigitsRev s n := by
  induction s with
  | zero => intro n; rfl
  | succ s ih =>
    intro n
    rw [lowDigitsRev_succ, lowDigitsRev_succ]
    have h1 : n % 10 ^ (s + 1) % 10 = n % 10 :=
      Nat.mod_mod_of_dvd n (dvd_pow_self 10 (Nat.succ_ne_zero s))
    have h2 : n % 10 ^ (s + 1) / 10 = n / 10 % 10 ^ s := by
      rw [pow_succ, mul_comm]
      exact Nat.mod_mul_right_div_self n 10 (10 ^ s)
    rw [h1, h2, ih (n / 10)]

theorem lowDigitsRev_eq_pad (s : Nat) :
    ∀ m, m < 10 ^ s →
      lowDigitsRev s m = natDigitsRev m ++ List.replicate (s - (natDigitsRev m).length) '0' := by
  induction s with
  | zero =>
    intro m hm
    have : m = 0 := by omega
    subst this
    rfl
  | succ s ih =>
    intro m hm
    rcases Nat.eq_zero_or_pos m with h0 | h0
    · subst h0
      rw [lowDigitsRev_succ]
      have : natDigitsRev 0 = [] := rfl
      rw [Nat.zero_div, ih 0 (by positivity), this]
      simp [List.replicate_succ]
      rfl
    · rw [lowDigitsRev_succ, natDigitsRev_succ m h0,
        ih (m / 10) ((Nat.div_lt_iff_lt_mul (by omega)).mpr (by rw [← pow_succ]; exact hm))]
      simp

theorem padZeros_length {s : Nat} (x : List Char) (h : x.length ≤ s) :
    (padZeros s x).length = s := by
  simp [padZeros]
  omega

theorem natRepr_pos_eq (n : Nat) (h : 0 < n) : natRepr n = (natDigitsRev n).reverse := by
  unfold natRepr
  rw [if_neg (by omega)]

theorem natRepr_split (s v : Nat) (hs : 0 < s) (hv : 10 ^ s ≤ v) :
    natRepr v = natRepr (v / 10 ^ s) ++ padZeros s (natRepr (v % 10 ^ s)) := by
  have hdivpos : 0 < v / 10 ^ s := (Nat.one_le_div_iff (by positivity)).mpr hv
  have hvpos : 0 < v := lt_of_lt_of_le (by positivity) hv
  rw [natRepr_pos_eq v hvpos, natDigitsRev_split s v hdivpos, List.reverse_append,
    ← natRepr_pos_eq _ hdivpos, ← lowDigitsRev_mod s v]
  congr 1
  set m := v % 10 ^ s with hm
  have hmlt : m < 10 ^ s := Nat.mod_lt v (by positivity)
  rcases Nat.eq_zero_or_pos m with h0 | h0
  · rw [h0]
    have : natDigitsRev 0 = [] := rfl
    rw [lowDigitsRev_eq_pad s 0 (by positivity), this]
    show (List.replicate (s - 0) '0').reverse = padZeros s (natRepr 0)
    rw [List.reverse_replicate]
    unfold natRepr padZeros
    rw [if_pos rfl]
    simp only [List.length_singleton]
    match s, hs with
    | t + 1, _ => rw [Nat.add_sub_cancel, Nat.sub_zero, List.replicate_succ']
  · rw [lowDigitsRev_eq_pad s m hmlt, List.reverse_append, List.reverse_replicate,
      ← natRepr_pos_eq m h0]
    unfold padZeros
    rw [natRepr_pos_eq m h0, List.length_reverse]

/-- C7 (counterexample), failing the claim on both cited renderings.
ClickHouse path: `duckDecimalToString` on the decimal value -3 with scale
2 yields `0.-3` — the sign ends up inside the padding — which is not the
claimed digit-string rendering (`-0.03`).  PostgreSQL path
(pg_types.go:92-96): the decimals 10^20 + 1 and 10^20 at scale 0 convert
to the *same* `Float64()` value, yet the claimed digit renderings of the
two differ — so the wire bytes, `strconv.FormatFloat` of that shared
double, cannot equal the claimed rendering for both. -/
theorem c7_counterexample :
    duckDecimalToString (-3 : Int) 2 = "0.-3".data ∧
    claimDecimalRendering (-3 : Int) 2 = "-0.03".data ∧
    ¬ duckDecimalToString (-3 : Int) 2 = claimDecimalRendering (-3 : Int) 2 ∧
    duckDecimalFloat64Scale0 ((10 ^ 20 + 1 : Nat) : Int) =
      duckDecimalFloat64Scale0 ((10 ^ 20 : Nat) : Int) ∧
    ¬ claimDecimalRendering ((10 ^ 20 + 1 : Nat) : Int) 0 =
      claimDecimalRendering ((10 ^ 20 : Nat) : Int) 0 := by
  refine ⟨?_, ?_, ?_, ?_, ?_⟩ <;> decide

/-- C7 (amended, as the counterexamples force): the digit-insertion rule
holds of `duckDecimalToString` (the ClickHouse CSV/TSV rendering) for
non-negative unscaled values — with scale 0 the rendering is exactly the
decimal digit string of the unscaled value, with no decimal point; with
positive scale `s` it is the digit string of `v / 10^s`, a point, and the
digit string of `v % 10^s` left-padded with zeros to exactly `s`
fractional digits.  The PostgreSQL-path rendering of `toPgValue`
(pg_types.go:92-96), by contrast, stringifies the `Float64()`
approximation: whatever formatting function is applied to that rounded
double, the result cannot satisfy the digit rule for every non-negative
scale-0 decimal, because the rounding collapses values beyond 53-bit
precision. -/
theorem c7_decimal_rendering (v s : Nat) :
    duckDecimalToString (v : Int) 0 = natRepr v ∧
    (0 < s → duckDecimalToString (v : Int) s =
      natRepr (v / 10 ^ s) ++ '.' :: padZeros s (natRepr (v % 10 ^ s))) ∧
    (∀ fmt : Int → List Char,
      ¬ ∀ w : Nat, fmt (duckDecimalFloat64Scale0 (w : Int)) =
        claimDecimalRendering (w : Int) 0) := by
  refine ⟨?_, ?_, ?_⟩
  · unfold duckDecimalToString
    rw [intRepr_ofNat]
    rfl
  · intro hs
    unfold duckDecimalToString
    rw [intRepr_ofNat, if_neg (by omega)]
    by_cases hle : (natRepr v).length ≤ s
    · rw [if_pos hle]
      have hvlt : v < 10 ^ s := (natRepr_length_le_iff hs).mp hle
      rw [Nat.div_eq_of_lt hvlt, Nat.mod_eq_of_lt hvlt]
      show '0' :: '.' :: padZeros s (natRepr v) = natRepr 0 ++ '.' :: padZeros s (natRepr v)
      rfl
    · rw [if_neg hle]
      have hge : 10 ^ s ≤ v := by
        rcases Nat.lt_or_ge v (10 ^ s) with h | h
        · exact absurd ((natRepr_length_le_iff hs).mpr h) hle
        · exact h
      have hsplit := natRepr_split s v hs hge
      have hBlen : (padZeros s (natRepr (v % 10 ^ s))).length = s :=
        padZeros_length _ ((natRepr_length_le_iff hs).mpr (Nat.mod_lt v (by positivity)))
      have hidx : (natRepr v).length - s = (natRepr (v / 10 ^ s)).length := by
        rw [hsplit, List.length_append, hBlen]
        omega
      rw [hidx]
      conv =>
        lhs
        rw [hsplit, List.take_left, List.drop_left]
  · intro fmt h
    have h1 := h (10 ^ 20 + 1)
    have h2 := h (10 ^ 20)
    rw [show duckDecimalFloat64Scale0 ((10 ^ 20 + 1 : Nat) : Int) =
        duckDecimalFloat64Scale0 ((10 ^ 20 : Nat) : Int) from by decide] at h1
    rw [h2] at h1
    exact absurd h1 (by decide)

/-- C7 witness: value 12345 at scale 2 renders as `123.45`. -/
theorem c7_witness :
    duckDecimalToString ((12345 : Nat) : Int) 2 =
      natRepr (12345 / 10 ^ 2) ++ '.' :: padZeros 2 (natRepr (12345 % 10 ^ 2)) :=
  (c7_decimal_rendering 12345 2).2.1 (by decide)

/-! ## C6: bindValues substitution -/

theorem digitCount_eq_zero (q : List Char)
    (hq : ∀ c, q.head? = some c → isDigitChar c = false) : digitCount q = 0 := by
  cases q with
  | nil => rfl
  | cons c cs =>
    rw [digitCount, hq c rfl]
    simp

theorem digitCount_append (l q : List Char)
    (hl : ∀ c ∈ l, isDigitChar c = true)
    (hq : ∀ c, q.head? = some c → isDigitChar c = false) :
    digitCount (l ++ q) = l.length := by
  induction l with
  | nil => simpa using digitCount_eq_zero q hq
  | cons c cs ih =>
    rw [List.cons_append, digitCount, hl c (List.mem_cons_self c cs)]
    simp only [if_true, List.length_cons]
    rw [ih (fun x hx => hl x (List.mem_cons_of_mem c hx))]

theorem bindValuesAux_copy (args : List GoValue) (p : List Char) :
    ∀ s : List Char, ('$' : Char) ∉ p →
      bindValuesAux args (p ++ s) = (bindValuesAux args s).map (fun out => p ++ out) := by
  induction p with
  | nil =>
    intro s _
    simp only [List.nil_append]
    cases bindValuesAux args s <;> simp
  | cons c cs ih =>
    intro s hp
    have hc : ¬ c = '$' := fun h => hp (h ▸ List.mem_cons_self c cs)
    rw [List.cons_append, bindValuesAux, if_neg hc,
      ih s (fun h => hp (List.mem_cons_of_mem c h))]
    cases bindValuesAux args s <;> simp

theorem bindValuesAux_no_dollar (args : List GoValue) (s : List Char)
    (hs : ('$' : Char) ∉ s) : bindValuesAux args s = some s := by
  have := bindValuesAux_copy args s [] hs
  rw [List.append_nil] at this
  rw [this, show bindValuesAux args [] = some [] from by rw [bindValuesAux]]
  simp

theorem bindValuesAux_at_placeholder (args : List GoValue) (N : Nat) (q : List Char)
    (gv : GoValue)
    (h1 : 1 ≤ N) (h2 : N ≤ args.length) (hlen : args.length < 2 ^ 63)
    (hq : ∀ c, q.head? = some c → isDigitChar c = false)
    (hg : args.get? (N - 1) = some gv) :
    bindValuesAux args ('$' :: (natRepr N ++ q)) =
      (bindValuesAux args q).map (fun out => renderBindValue gv ++ out) := by
  have hdc : digitCount (natRepr N ++ q) = (natRepr N).length :=
    digitCount_append _ _ (natRepr_all_digits N) hq
  have hne : ¬ (natRepr N).length = 0 := by
    intro h
    exact natRepr_ne_nil N (List.eq_nil_of_length_eq_zero h)
  have hparse : goParseIntClamped (natRepr N) = N := by
    unfold goParseIntClamped
    rw [digitsToNat_natRepr]
    exact min_eq_left (by omega)
  rw [bindValuesAux]
  simp only [if_pos rfl, hdc, if_neg hne, List.take_left, hparse,
    if_neg (Nat.not_lt.mpr h2), if_neg (show ¬ N = 0 by omega), List.drop_left, hg]
  simp

/-- C6: when a portal's statement declares more than 20 input parameters,
Execute does not run the stored engine statement but freshly prepared
substituted text; in that text every `$N` placeholder with
`1 ≤ N ≤ len(values)` is replaced by the literal rendering of value `N`
(string single-quoted with quotes doubled, int64/float64 stringified, nil
→ `null`), while every non-placeholder character is copied unchanged
(both before the placeholder and, recursively, after it; a text with no
`$` at all is returned verbatim). -/
theorem c6_execute_bindValues (n : Nat) (query : List Char) (values : List GoValue)
    (out : List Char) (args : List GoValue) (p q : List Char) (N : Nat) (gv : GoValue)
    (hthr : maxInputArgsUsePrepared < n)
    (hbv : bindValuesAux values query = some out)
    (hp : ('$' : Char) ∉ p)
    (h1 : 1 ≤ N) (h2 : N ≤ args.length) (hlen : args.length < 2 ^ 63)
    (hq : ∀ c, q.head? = some c → isDigitChar c = false)
    (hg : args.get? (N - 1) = some gv) :
    executePlan n query values = .useFresh out ∧
    bindValuesAux args (p ++ ('$' :: (natRepr N ++ q))) =
      (bindValuesAux args q).map (fun out => p ++ (renderBindValue gv ++ out)) ∧
    (∀ s : List Char, ('$' : Char) ∉ s → bindValuesAux args s = some s) := by
  refine ⟨?_, ?_, fun s hs => bindValuesAux_no_dollar args s hs⟩
  · unfold executePlan
    rw [if_pos hthr, hbv]
  · rw [bindValuesAux_copy args p _ hp,
      bindValuesAux_at_placeholder args N q gv h1 h2 hlen hq hg]
    cases bindValuesAux args q <;> simp

/-- C6 witness: 21 declared parameters force the substitution path;
`insert $1--` with a quoted string bound renders the escaped literal. -/
theorem c6_witness :
    executePlan 21 "select $1".data [.vint 5] = .useFresh "select 5".data ∧
    bindValuesAux [GoValue.vstr ['a', squote, 'b']]
        ("insert ".data ++ ('$' :: (natRepr 1 ++ "--".data))) =
      (bindValuesAux [GoValue.vstr ['a', squote, 'b']] "--".data).map
        (fun out => "insert ".data ++
          (renderBindValue (GoValue.vstr ['a', squote, 'b']) ++ out)) ∧
    (∀ s : List Char, ('$' : Char) ∉ s →
      bindValuesAux [GoValue.vstr ['a', squote, 'b']] s = some s) :=
  c6_execute_bindValues 21 "select $1".data [.vint 5] "select 5".data
    [GoValue.vstr ['a', squote, 'b']] "insert ".data "--".data 1
    (GoValue.vstr ['a', squote, 'b'])
    (by decide)
    (by simp [bindValuesAux, digitCount, goParseIntClamped, digitsToNat, digitVal,
      isDigitChar, renderBindValue, intRepr, natRepr, natDigitsRev, natDigitsRevAux,
      digitChar])
    (by decide) (by decide) (by decide) (by decide)
    (by intro c h; simp [List.head?] at h; rw [← h]; decide)
    rfl

/-! ## C9: the LIMIT rewrite -/

theorem takeWhile_eq_nil_of_head (f : Char → Bool) (l : List Char)
    (h : ∀ c, l.head? = some c → f c = false) : l.takeWhile f = [] := by
  cases l with
  | nil => rfl
  | cons c cs => rw [List.takeWhile_cons, h c rfl]; simp

theorem takeWhile_all_append (f : Char → Bool) (l r : List Char)
    (hl : ∀ c ∈ l, f c = true) (hr : r.takeWhile f = []) :
    (l ++ r).takeWhile f = l := by
  induction l with
  | nil => simpa using hr
  | cons c cs ih =>
    rw [List.cons_append, List.takeWhile_cons, hl c (List.mem_cons_self c cs)]
    simp only [if_true]
    rw [ih (fun x hx => hl x (List.mem_cons_of_mem c hx))]

theorem digit_not_space {c : Char} (h : isDigitChar c = true) : isGoSpace c = false := by
  have hb : 48 ≤ c.toNat ∧ c.toNat ≤ 57 := by
    simpa [isDigitChar, Bool.and_eq_true, decide_eq_true_eq] using h
  unfold isGoSpace
  simp only [Bool.or_eq_false_iff, decide_eq_false_iff_not]
  refine ⟨⟨⟨⟨?_, ?_⟩, ?_⟩, ?_⟩, ?_⟩ <;> intro hc <;> rw [hc] at hb <;> revert hb <;> decide

theorem takeWhile_space_natRepr_append (n : Nat) (r : List Char) :
    (natRepr n ++ r).takeWhile isGoSpace = [] := by
  apply takeWhile_eq_nil_of_head
  intro c hc
  rcases hnr : natRepr n with _ | ⟨d, ds⟩
  · exact absurd hnr (natRepr_ne_nil n)
  · rw [hnr] at hc
    simp only [List.cons_append, List.head?_cons, Option.some.injEq] at hc
    subst hc
    exact digit_not_space
      (natRepr_all_digits n _ (by rw [hnr]; exact List.mem_cons_self _ _))

theorem dropPrefixCI_limit (xs : List Char) :
    dropPrefixCI "limit".data ('L' :: 'I' :: 'M' :: 'I' :: 'T' :: xs) = some xs := rfl

theorem matchLimitAt_occ (a b : Nat) (q : List Char)
    (hq : ∀ c, q.head? = some c → isDigitChar c = false) :
    matchLimitAt (limitOcc a b ++ q) =
      some ((limitOcc a b).length, natRepr a, natRepr b) := by
  have hnorm : limitOcc a b ++ q =
      'L' :: 'I' :: 'M' :: 'I' :: 'T' :: ' ' ::
        (natRepr a ++ (',' :: (' ' :: (natRepr b ++ q)))) := by
    simp [limitOcc, List.append_assoc]
  rw [hnorm]
  unfold matchLimitAt
  rw [dropPrefixCI_limit]
  have hsp1 : (' ' :: (natRepr a ++ (',' :: (' ' :: (natRepr b ++ q))))).takeWhile isGoSpace =
      [' '] := by
    rw [List.takeWhile_cons]
    simp only [show isGoSpace ' ' = true from rfl, if_true]
    rw [takeWhile_space_natRepr_append]
  have hds1 : ((natRepr a ++ (',' :: (' ' :: (natRepr b ++ q))))).takeWhile isDigitChar =
      natRepr a :=
    takeWhile_all_append _ _ _ (natRepr_all_digits a) rfl
  have hds2 : (natRepr b ++ q).takeWhile isDigitChar = natRepr b :=
    takeWhile_all_append _ _ _ (natRepr_all_digits b) (takeWhile_eq_nil_of_head _ _ hq)
  have hne_a : ¬ (natRepr a).length = 0 := by
    intro h; exact natRepr_ne_nil a (List.eq_nil_of_length_eq_zero h)
  have hne_b : ¬ (natRepr b).length = 0 := by
    intro h; exact natRepr_ne_nil b (List.eq_nil_of_length_eq_zero h)
  simp only [hsp1, List.length_singleton, if_neg (by omega : ¬ (1 : Nat) = 0),
    List.drop_one, List.tail_cons, hds1, if_neg hne_a, List.drop_left,
    show (',' :: (' ' :: (natRepr b ++ q))).takeWhile isGoSpace = [] from rfl,
    List.length_nil, List.drop_zero, if_pos rfl,
    show (' ' :: (natRepr b ++ q)).takeWhile isGoSpace = [' '] from by
      rw [List.takeWhile_cons]
      simp only [show isGoSpace ' ' = true from rfl, if_true]
      rw [takeWhile_space_natRepr_append],
    hds2, if_neg hne_b]
  rw [if_true]
  simp only [Option.some.injEq, Prod.mk.injEq, and_true]
  have h6 : ("LIMIT ".data).length = 6 := rfl
  simp [limitOcc, List.length_append, h6]
  omega

theorem limitRewriteScan_occ (a b : Nat) (q : List Char)
    (hq : ∀ c, q.head? = some c → isDigitChar c = false) :
    limitRewriteScan (limitOcc a b ++ q) =
      "LIMIT ".data ++ natRepr b ++ " OFFSET ".data ++ natRepr a ++ limitRewriteScan q := by
  have hm := matchLimitAt_occ a b q hq
  have hnorm : limitOcc a b ++ q =
      'L' :: ('I' :: 'M' :: 'I' :: 'T' :: ' ' ::
        (natRepr a ++ (',' :: (' ' :: (natRepr b ++ q))))) := by
    simp [limitOcc, List.append_assoc]
  rw [hnorm] at hm
  rw [hnorm, limitRewriteScan, hm]
  dsimp only
  have hsplit : 'I' :: 'M' :: 'I' :: 'T' :: ' ' ::
      (natRepr a ++ (',' :: (' ' :: (natRepr b ++ q)))) =
      ('I' :: 'M' :: 'I' :: 'T' :: ' ' :: (natRepr a ++ [','] ++ [' '] ++ natRepr b)) ++ q := by
    simp
  have hlen : (limitOcc a b).length - 1 =
      ('I' :: 'M' :: 'I' :: 'T' :: ' ' :: (natRepr a ++ [','] ++ [' '] ++ natRepr b)).length := by
    simp [limitOcc, List.length_append]
  rw [hsplit, hlen, List.drop_left]

theorem limitRewriteScan_copy (p : List Char) :
    ∀ s : List Char, (∀ i, i < p.length → matchLimitAt ((p ++ s).drop i) = none) →
      limitRewriteScan (p ++ s) = p ++ limitRewriteScan s := by
  induction p with
  | nil => intro s _; simp
  | cons c cs ih =>
    intro s hp
    have h0 := hp 0 (by simp)
    rw [List.drop_zero, List.cons_append] at h0
    rw [List.cons_append, limitRewriteScan, h0]
    rw [ih s (fun i hi => by
      have := hp (i + 1) (by simpa using Nat.succ_lt_succ hi)
      rwa [List.cons_append, List.drop_succ_cons] at this)]
    rfl

/-- C9: the HTTP SELECT limit rewrite transforms every occurrence of
`LIMIT a, b` (non-negative decimal `a`, `b`) into `LIMIT b OFFSET a` — an
occurrence after a clean prefix (one that starts no match) and followed by
a non-digit is replaced, the prefix is copied verbatim, and the scan
continues behind it — and a query containing no match of the pattern
anywhere is left completely unchanged. -/
theorem c9_limit_rewrite (p q : List Char) (a b : Nat)
    (hp : noMatchInRegion p (limitOcc a b ++ q) = true)
    (hq : ∀ c, q.head? = some c → isDigitChar c = false) :
    limitRewriteScan (p ++ (limitOcc a b ++ q)) =
      p ++ ("LIMIT ".data ++ natRepr b ++ " OFFSET ".data ++ natRepr a ++
        limitRewriteScan q) ∧
    (∀ s : List Char, noLimitMatch s = true → limitRewriteScan s = s) := by
  constructor
  · have hp' : ∀ i, i < p.length →
        matchLimitAt ((p ++ (limitOcc a b ++ q)).drop i) = none := by
      intro i hi
      have := List.all_eq_true.mp hp i (List.mem_range.mpr hi)
      simpa [Option.isNone_iff_eq_none] using this
    rw [limitRewriteScan_copy p (limitOcc a b ++ q) hp', limitRewriteScan_occ a b q hq]
  · intro s hns
    have hs' : ∀ i, i < s.length → matchLimitAt ((s ++ ([] : List Char)).drop i) = none := by
      intro i hi
      have := List.all_eq_true.mp hns i (List.mem_range.mpr (by omega))
      simpa [Option.isNone_iff_eq_none] using this
    have := limitRewriteScan_copy s [] hs'
    rw [List.append_nil] at this
    rw [this, show limitRewriteScan [] = [] from by rw [limitRewriteScan]]
    rw [List.append_nil]

/-- C9 witness: `select x LIMIT 5, 10` rewrites to `select x LIMIT 10
OFFSET 5`, and `select y` is untouched. -/
theorem c9_witness :
    limitRewriteScan ("select x ".data ++ (limitOcc 5 10 ++ [])) =
      "select x ".data ++ ("LIMIT ".data ++ natRepr 10 ++ " OFFSET ".data ++ natRepr 5 ++
        limitRewriteScan []) ∧
    (∀ s : List Char, noLimitMatch s = true → limitRewriteScan s = s) :=
  c9_limit_rewrite "select x ".data [] 5 10 (by decide)
    (by intro c h; simp [List.head?] at h)

end DuckServer
